import Mathlib

/-!
Shallow embedding of the option-chain pipeline of `src/app.py`
(class `OptionChainAnalyzer`): record normalization (`process_options` /
`safe_get`), chain assembly (`process_data`), moneyness classification,
per-strike analysis (`analyze_strike`) and the 3-factor recommendation
scorer (`generate_recommendation`).

Modelling conventions:
* Python floats are modelled as exact rationals `ℚ`: the code only ever
  coerces, compares and subtracts these values (no division, no rounding),
  so `ℚ` is a faithful idealization of the finite float values.
* A raw JSON field value is classified by how Python `float(...)` treats
  it: a value on which `float` succeeds (JSON numbers, numeric strings),
  `null` (`float(None)` raises `TypeError`), or any other value on which
  `float` raises `ValueError`/`TypeError`.
* Dictionaries are modelled as structures of `Option`-valued fields
  (`none` = key absent, giving `KeyError` on subscription and the default
  on `.get`).
* `print` diagnostics are modelled as a `List String` log threaded through
  the result; the message texts are condensed but one log entry is emitted
  exactly where the source prints a warning or error on that path.
* `pd.DataFrame(pythonList)` of an empty list yields a frame with no
  columns, so `pd.merge(..., on='strikePrice')` raises `KeyError`, which
  the enclosing `except Exception` turns into the `(None, None)` return;
  the model encodes this as the empty-side guard in `process_data`.
* `pd.merge(..., how='outer')` is modelled as: every left row paired with
  every right row of equal key (cartesian on duplicate keys), followed by
  the right rows whose key occurs in no left row; `.fillna(0)` fills the
  absent side of a one-sided row with zeros. Row order of the pandas
  result is version-dependent; no theorem below depends on row order.
-/

namespace OptionChain

/-- Classification of one raw JSON field value by the behaviour of Python
`float(...)` on it: `num q` coerces to the value `q`; `null` is JSON null
(`float(None)` raises `TypeError`, and `val is not None` is false); `bad`
is any other non-coercible value (`float` raises). -/
inductive RawVal where
  | num (q : ℚ)
  | null
  | bad
deriving DecidableEq, Repr

/-- A raw option entry (one element of `callOptions` / `putOptions`):
a dictionary whose fields may each be absent (`none`). Fields other than
the six read by `process_options` are irrelevant to the pipeline. -/
structure RawOption where
  strikePrice : Option RawVal
  openInterest : Option RawVal
  impliedVolatility : Option RawVal
  lastPrice : Option RawVal
  bidPrice : Option RawVal
  askPrice : Option RawVal
deriving DecidableEq, Repr

/-- Model of `safe_get(d, key, default=0)` (src/app.py lines 81-87):
`val = d.get(key, default); return float(val) if val is not None else
default`, with `ValueError`/`TypeError` from the coercion caught and the
default `0` returned. -/
def safe_get : Option RawVal → ℚ
  | none => 0
  | some (RawVal.num q) => q
  | some RawVal.null => 0
  | some RawVal.bad => 0

/-- A normalized option record, the dictionary built by `process_options`
(src/app.py lines 93-100). -/
structure NormRecord where
  strikePrice : ℚ
  openInterest : ℚ
  impliedVolatility : ℚ
  lastPrice : ℚ
  bidPrice : ℚ
  askPrice : ℚ
deriving DecidableEq, Repr

/-- Model of `float(opt['strikePrice'])`: `KeyError` when the key is
absent, `TypeError` on null, `ValueError`/`TypeError` on a non-coercible
value; all are caught by the per-entry `except Exception`. -/
def coerceStrike (o : RawOption) : Option ℚ :=
  match o.strikePrice with
  | some (RawVal.num q) => some q
  | _ => none

/-- Normalization of one raw entry: the loop body of `process_options`
(src/app.py lines 92-103). `none` means the entry raised and was skipped
with a warning. -/
def normalizeOption (o : RawOption) : Option NormRecord :=
  (coerceStrike o).map fun q =>
    { strikePrice := q
      openInterest := safe_get o.openInterest
      impliedVolatility := safe_get o.impliedVolatility
      lastPrice := safe_get o.lastPrice
      bidPrice := safe_get o.bidPrice
      askPrice := safe_get o.askPrice }

/-- Model of `process_options` (src/app.py lines 89-104): normalize each
entry in order, skipping entries whose `strikePrice` coercion raises and
logging one warning per skipped entry. -/
def process_options : List RawOption → List NormRecord × List String
  | [] => ([], [])
  | o :: rest =>
    let pr := process_options rest
    match normalizeOption o with
    | some r => (r :: pr.1, pr.2)
    | none => (pr.1, "Warning: Skipping malformed option" :: pr.2)

/-- One entry of `data['strikePrices']`. The model restricts `strikePrice`
values in the strike list to JSON numbers or an absent key (the shape the
endpoint documents); `isAtm` is the truthiness of `s.get('isAtm', False)`. -/
structure StrikeEntry where
  strikePrice : Option ℚ
  isAtm : Bool
deriving DecidableEq, Repr

/-- The `data` section of the response; each key may be absent
(subscription then raises `KeyError`). -/
structure RawData where
  strikePrices : Option (List StrikeEntry)
  callOptions : Option (List RawOption)
  putOptions : Option (List RawOption)
deriving DecidableEq, Repr

/-- A truthy top-level response object; `data = none` models a dictionary
without the `'data'` key. A falsy argument to `process_data` (Python
`None` or an empty dictionary) is modelled as `none` at the call site. -/
structure RawResponse where
  data : Option RawData
deriving DecidableEq, Repr

/-- Outcome of the ATM-strike detection block (src/app.py lines 66-76). -/
inductive AtmResult where
  | found (q : ℚ)
  | noStrikes
  | keyError
deriving DecidableEq, Repr

/-- First entry of the strike list whose `isAtm` flag is truthy: the
generator inside `next((s['strikePrice'] for s in strikes if
s.get('isAtm', False)), None)`. Entries other than this first flagged one
never have their `strikePrice` key touched. -/
def firstFlagged : List StrikeEntry → Option StrikeEntry
  | [] => none
  | s :: rest => if s.isAtm then some s else firstFlagged rest

/-- The fallback arm `atm_strike = strikes[0]['strikePrice'] if strikes
else None` followed by `if not atm_strike: return None, None`
(src/app.py lines 72-75). Note the Python truthiness test: a strike of
`0` is falsy and is treated exactly like `None`. -/
def fallbackAtm : List StrikeEntry → AtmResult
  | [] => AtmResult.noStrikes
  | s :: _ =>
    match s.strikePrice with
    | none => AtmResult.keyError
    | some q => if q ≠ 0 then AtmResult.found q else AtmResult.noStrikes

/-- Model of the whole ATM-strike detection block (src/app.py lines
66-76). `if not atm_strike` is Python truthiness, so a flagged strike of
`0` also falls through to the fallback arm. -/
def detectAtm (strikes : List StrikeEntry) : AtmResult :=
  match firstFlagged strikes with
  | some s =>
    match s.strikePrice with
    | none => AtmResult.keyError
    | some q => if q ≠ 0 then AtmResult.found q else fallbackAtm strikes
  | none => fallbackAtm strikes

/-- One row of the assembled table: the merged frame after `.fillna(0)`
and the `moneyness` column (src/app.py lines 111-126). -/
structure ChainRow where
  strikePrice : ℚ
  openInterest_call : ℚ
  impliedVolatility_call : ℚ
  lastPrice_call : ℚ
  bidPrice_call : ℚ
  askPrice_call : ℚ
  openInterest_put : ℚ
  impliedVolatility_put : ℚ
  lastPrice_put : ℚ
  bidPrice_put : ℚ
  askPrice_put : ℚ
  moneyness : String
deriving DecidableEq, Repr

/-- The moneyness lambda of src/app.py line 125:
`'ITM' if x < atm_strike else 'OTM' if x > atm_strike else 'ATM'`. -/
def moneyness_of (x atm : ℚ) : String :=
  if x < atm then "ITM" else if x > atm then "OTM" else "ATM"

/-- Model of `pd.merge(calls_df, puts_df, on='strikePrice', how='outer')`
row content: every call record paired with each put record of equal
strike (or with no put record when none matches), followed by the put
records whose strike matches no call record. Each element carries the
join key and the two optional sides. -/
def mergeKeyed (calls puts : List NormRecord) : List (ℚ × Option NormRecord × Option NormRecord) :=
  (calls.flatMap fun c =>
    match puts.filter (fun p => decide (p.strikePrice = c.strikePrice)) with
    | [] => [(c.strikePrice, some c, none)]
    | ms => ms.map fun p => (c.strikePrice, some c, some p))
  ++ (puts.filter fun p => calls.all fun c => !(decide (c.strikePrice = p.strikePrice))).map
      (fun p => (p.strikePrice, none, some p))

/-- Zero record used by `.fillna(0)` for the side absent from a one-sided
row (every column of the absent side becomes `0`). -/
def zeroSide (k : ℚ) : NormRecord :=
  { strikePrice := k, openInterest := 0, impliedVolatility := 0
    lastPrice := 0, bidPrice := 0, askPrice := 0 }

/-- Turn one merged element into a table row: `.fillna(0)` on the absent
side plus the `moneyness` column (src/app.py lines 121-126). -/
def toChainRow (atm : ℚ) : ℚ × Option NormRecord × Option NormRecord → ChainRow
  | (k, oc, op) =>
    let c := oc.getD (zeroSide k)
    let p := op.getD (zeroSide k)
    { strikePrice := k
      openInterest_call := c.openInterest
      impliedVolatility_call := c.impliedVolatility
      lastPrice_call := c.lastPrice
      bidPrice_call := c.bidPrice
      askPrice_call := c.askPrice
      openInterest_put := p.openInterest
      impliedVolatility_put := p.impliedVolatility
      lastPrice_put := p.lastPrice
      bidPrice_put := p.bidPrice
      askPrice_put := p.askPrice
      moneyness := moneyness_of k atm }

/-- The assembled table for non-empty normalized sides: merge, fill and
classify (src/app.py lines 111-126). -/
def assembleTable (calls puts : List NormRecord) (atm : ℚ) : List ChainRow :=
  (mergeKeyed calls puts).map (toChainRow atm)

/-- Model of `process_data` (src/app.py lines 48-135). Returns the pair
`(option_chain, atm_strike)` together with the diagnostic log. All
exception paths are caught by the enclosing `except Exception` and return
`(None, None)` after printing an error. -/
def process_data (input : Option RawResponse) :
    (Option (List ChainRow) × Option ℚ) × List String :=
  match input with
  | none => ((none, none), ["No data to process"])
  | some resp =>
    match resp.data with
    | none => ((none, none), ["ERROR: data key missing in response"])
    | some d =>
      match d.strikePrices with
      | none => ((none, none), ["ERROR: strikePrices missing in response data"])
      | some strikes =>
        match detectAtm strikes with
        | AtmResult.keyError => ((none, none), ["ERROR: Data processing failed"])
        | AtmResult.noStrikes =>
            ((none, none),
              ["WARNING: Could not determine ATM strike price", "ERROR: No strike prices found"])
        | AtmResult.found atm =>
          match d.callOptions with
          | none => ((none, none), ["ERROR: Data processing failed"])
          | some co =>
            let pc := process_options co
            match d.putOptions with
            | none => ((none, none), pc.2 ++ ["ERROR: Data processing failed"])
            | some po =>
              let pp := process_options po
              if pc.1.isEmpty || pp.1.isEmpty then
                ((none, none), pc.2 ++ pp.2 ++ ["ERROR: Data processing failed"])
              else
                ((some (assembleTable pc.1 pp.1 atm), some atm), pc.2 ++ pp.2)

/-- The row lookup `self.option_chain[self.option_chain['strikePrice'] ==
strike]` followed by `.iloc[0]` (src/app.py lines 145-153). -/
def findRow (chain : List ChainRow) (strike : ℚ) : Option ChainRow :=
  (chain.filter fun r => decide (r.strikePrice = strike)).head?

/-- The nearest-strike report of the not-found branch (src/app.py line
149): the strike of the first row, in table order, attaining the minimal
absolute distance to the query. The numpy `argsort` order among equal
distances is implementation-defined; the theorems below use only the
minimality of the reported value. -/
def nearestFold (strike b : ℚ) (l : List ChainRow) : ℚ :=
  l.foldl
    (fun acc row => if |row.strikePrice - strike| < |acc - strike| then row.strikePrice else acc)
    b

/-- The nearest strike itself: first row in table order attaining the
minimal distance (see `nearestFold`); `none` on an empty table. -/
def nearestStrike (chain : List ChainRow) (strike : ℚ) : Option ℚ :=
  match chain with
  | [] => none
  | r :: rs => some (nearestFold strike r.strikePrice rs)

/-- One side of a strike analysis (price, open interest, implied
volatility, bid-ask spread). -/
structure SideView where
  price : ℚ
  oi : ℚ
  iv : ℚ
  spread : ℚ
deriving DecidableEq, Repr

/-- The analysis dictionary returned by `analyze_strike` on success
(src/app.py lines 155-170). -/
structure StrikeAnalysis where
  strike : ℚ
  moneyness : String
  call : SideView
  put : SideView
deriving DecidableEq, Repr

/-- Model of `analyze_strike` (src/app.py lines 137-176) on a loaded
table: `none` exactly when the queried strike matches no row, in which
case the nearest strike is reported (see `nearestStrike`) and nothing is
scored. -/
def analyze_strike (chain : List ChainRow) (strike : ℚ) : Option StrikeAnalysis :=
  match findRow chain strike with
  | none => none
  | some r =>
    some
      { strike := strike
        moneyness := r.moneyness
        call :=
          { price := r.lastPrice_call, oi := r.openInterest_call
            iv := r.impliedVolatility_call
            spread := r.askPrice_call - r.bidPrice_call }
        put :=
          { price := r.lastPrice_put, oi := r.openInterest_put
            iv := r.impliedVolatility_put
            spread := r.askPrice_put - r.bidPrice_put } }

/-- The direction encoded in the string returned by
`generate_recommendation`: the `BUY CALL` / `BUY PUT` / `NEUTRAL` prefix. -/
inductive Direction where
  | CALL
  | PUT
  | NEUTRAL
deriving DecidableEq, Repr

/-- Structured content of the recommendation string: direction prefix,
the two scores and the ordered factor list. -/
structure Recommendation where
  direction : Direction
  callScore : ℕ
  putScore : ℕ
  factors : List String
deriving DecidableEq, Repr

/-- Model of `generate_recommendation` (src/app.py lines 178-221) on a
truthy analysis dictionary: the three sequential if/else comparisons each
add one point to one side and append one factor string, then the final
branch picks the direction. The source returns these data rendered as a
string; the falsy-analysis guard at the top returns a fixed message
outside this scored path. -/
def generate_recommendation (analysis : StrikeAnalysis) : Recommendation :=
  let ivCall := analysis.call.iv < analysis.put.iv
  let cs1 : ℕ := if ivCall then 1 else 0
  let ps1 : ℕ := if ivCall then 0 else 1
  let f1 : List String := if ivCall then ["Call has lower IV"] else ["Put has lower IV"]
  let oiCall := analysis.call.oi > analysis.put.oi
  let cs2 : ℕ := if oiCall then cs1 + 1 else cs1
  let ps2 : ℕ := if oiCall then ps1 else ps1 + 1
  let f2 : List String := f1 ++ (if oiCall then ["Call has higher OI"] else ["Put has higher OI"])
  let spCall := analysis.call.spread < analysis.put.spread
  let cs3 : ℕ := if spCall then cs2 + 1 else cs2
  let ps3 : ℕ := if spCall then ps2 else ps2 + 1
  let f3 : List String :=
    f2 ++ (if spCall then ["Call has tighter spread"] else ["Put has tighter spread"])
  let dir :=
    if cs3 > ps3 then Direction.CALL
    else if ps3 > cs3 then Direction.PUT
    else Direction.NEUTRAL
  { direction := dir, callScore := cs3, putScore := ps3, factors := f3 }

/-- Written from the amended claim wording (not from the source): the
nonzero strike of the first list entry, if any. Used by `atmRuleSpec`. -/
def headNonzero (strikes : List StrikeEntry) : Option ℚ :=
  match strikes.head? with
  | none => none
  | some s =>
    match s.strikePrice with
    | none => none
    | some q => if q = 0 then none else some q

/-- Written from the amended claim wording (not from the source), for
comparison with `detectAtm`: the detected ATM strike is the strikePrice
of the first `isAtm`-flagged entry provided it is nonzero; otherwise (no
flagged entry, or a flagged strike equal to 0 — falsy in Python) the
first entry of the sequence provides the strike, again provided it is
nonzero; `none` means detection fails and no table is produced. -/
def atmRuleSpec (strikes : List StrikeEntry) : Option ℚ :=
  match strikes.find? (fun s => s.isAtm) with
  | some s =>
    match s.strikePrice with
    | some q => if q = 0 then headNonzero strikes else some q
    | none => headNonzero strikes
  | none => headNonzero strikes

/-! ### Concrete inputs used by the closed witness theorems -/

/-- Raw option entry with all six fields present and numeric. -/
def numOpt (s oi iv lp bp ap : ℚ) : RawOption :=
  ⟨some (RawVal.num s), some (RawVal.num oi), some (RawVal.num iv),
   some (RawVal.num lp), some (RawVal.num bp), some (RawVal.num ap)⟩

/-- Sample response: strikes 100/105/110 with 105 flagged ATM; at every
strike the call has IV 10, OI 500, spread 1 and the put IV 20, OI 300,
spread 2 (the scenario of spec section 8). -/
def sampleResp : RawResponse :=
  ⟨some ⟨some [⟨some 100, false⟩, ⟨some 105, true⟩, ⟨some 110, false⟩],
    some [numOpt 100 500 10 5 1 2, numOpt 105 500 10 5 1 2, numOpt 110 500 10 5 1 2],
    some [numOpt 100 300 20 5 1 3, numOpt 105 300 20 5 1 3, numOpt 110 300 20 5 1 3]⟩⟩

/-- The table assembled from `sampleResp`. -/
def sampleTable : List ChainRow :=
  ((process_data (some sampleResp)).1.1).getD []

/-- Response whose call side is empty while the put side has one valid
entry at the (flagged) strike 100. -/
def emptyCallResp : RawResponse :=
  ⟨some ⟨some [⟨some 100, true⟩], some [], some [numOpt 100 300 20 5 1 3]⟩⟩

/-- Response whose first strike entry is flagged `isAtm` with the falsy
strike value 0; used for the ATM-truthiness counterexample. -/
def zeroAtmResp : RawResponse :=
  ⟨some ⟨some [⟨some 0, true⟩, ⟨some 100, false⟩],
    some [numOpt 100 500 10 5 1 2], some [numOpt 100 300 20 5 1 3]⟩⟩

/-- Normalized call records at strikes 100 and 105. -/
def wCalls : List NormRecord :=
  [⟨100, 500, 10, 5, 1, 2⟩, ⟨105, 500, 10, 5, 1, 2⟩]

/-- Normalized put records at strikes 105 and 110. -/
def wPuts : List NormRecord :=
  [⟨105, 300, 20, 5, 1, 3⟩, ⟨110, 300, 20, 5, 1, 3⟩]

/-- Raw entries exercising the normalization defaults: one entry with a
numeric strike and absent/null/non-coercible optional fields, and one
entry whose strike is absent (dropped with a warning). -/
def wOptA : RawOption :=
  ⟨some (RawVal.num 100), none, some RawVal.null, some RawVal.bad, none, some (RawVal.num 2)⟩

/-- Raw entry with no strikePrice key at all. -/
def wOptB : RawOption := ⟨none, some (RawVal.num 500), none, none, none, none⟩

/-- The two-entry batch fed to `process_options` in the C5 witness. -/
def wOpts : List RawOption := [wOptA, wOptB]

/-- One-row chain used by the strike-not-found witness. -/
def wChain : List ChainRow :=
  [⟨100, 500, 10, 5, 1, 2, 300, 20, 5, 1, 3, "ATM"⟩]

/-- Strike list used by the ATM-rule witness: no flagged entry, nonzero
first strike. -/
def wStrikes : List StrikeEntry := [⟨some 22500, false⟩, ⟨some 22550, false⟩]

/-! ### Helper lemmas -/

/-- Specification of the moneyness lambda: ITM exactly below the ATM
strike. -/
lemma moneyness_of_eq_ITM (x atm : ℚ) : moneyness_of x atm = "ITM" ↔ x < atm := by
  unfold moneyness_of
  rcases lt_trichotomy x atm with h | h | h
  · simp [h]
  · subst h; simp [lt_irrefl]
  · simp [lt_asymm h, h]

/-- Specification of the moneyness lambda: OTM exactly above the ATM
strike. -/
lemma moneyness_of_eq_OTM (x atm : ℚ) : moneyness_of x atm = "OTM" ↔ atm < x := by
  unfold moneyness_of
  rcases lt_trichotomy x atm with h | h | h
  · simp [h, lt_asymm h]
  · subst h; simp [lt_irrefl]
  · simp [lt_asymm h, h]

/-- Specification of the moneyness lambda: ATM exactly at the ATM strike. -/
lemma moneyness_of_eq_ATM (x atm : ℚ) : moneyness_of x atm = "ATM" ↔ x = atm := by
  unfold moneyness_of
  rcases lt_trichotomy x atm with h | h | h
  · simp [h, h.ne]
  · subst h; simp [lt_irrefl]
  · simp [lt_asymm h, h, h.ne']

/-- The moneyness lambda only ever produces the three labels. -/
lemma moneyness_of_mem (x atm : ℚ) :
    moneyness_of x atm = "ITM" ∨ moneyness_of x atm = "OTM" ∨ moneyness_of x atm = "ATM" := by
  unfold moneyness_of
  rcases lt_trichotomy x atm with h | h | h
  · simp [h]
  · subst h; simp [lt_irrefl]
  · simp [lt_asymm h, h]

/-- Key and moneyness of a converted merge element. -/
lemma toChainRow_key_moneyness (atm : ℚ) (x : ℚ × Option NormRecord × Option NormRecord) :
    (toChainRow atm x).strikePrice = x.1 ∧
      (toChainRow atm x).moneyness = moneyness_of x.1 atm := by
  obtain ⟨k, oc, op⟩ := x
  exact ⟨rfl, rfl⟩

/-- Inversion of a successful `process_data` run: the input passed every
structural check, ATM detection succeeded, both option lists were present,
both normalized sides are non-empty, and the table is the assembled merge. -/
lemma process_data_success_shape {input : Option RawResponse} {table : List ChainRow} {atm : ℚ}
    (h : (process_data input).1 = (some table, some atm)) :
    ∃ resp d strikes co po, input = some resp ∧ resp.data = some d ∧
      d.strikePrices = some strikes ∧ detectAtm strikes = AtmResult.found atm ∧
      d.callOptions = some co ∧ d.putOptions = some po ∧
      (process_options co).1 ≠ [] ∧ (process_options po).1 ≠ [] ∧
      table = assembleTable (process_options co).1 (process_options po).1 atm := by
  cases input with
  | none => simp [process_data] at h
  | some resp =>
    cases hd : resp.data with
    | none => simp [process_data, hd] at h
    | some d =>
      cases hsp : d.strikePrices with
      | none => simp [process_data, hd, hsp] at h
      | some strikes =>
        cases hatm : detectAtm strikes with
        | keyError => simp [process_data, hd, hsp, hatm] at h
        | noStrikes => simp [process_data, hd, hsp, hatm] at h
        | found q =>
          cases hco : d.callOptions with
          | none => simp [process_data, hd, hsp, hatm, hco] at h
          | some co =>
            cases hpo : d.putOptions with
            | none => simp [process_data, hd, hsp, hatm, hco, hpo] at h
            | some po =>
              by_cases hb : ((process_options co).1.isEmpty || (process_options po).1.isEmpty) = true
              · simp [process_data, hd, hsp, hatm, hco, hpo, hb] at h
              · rw [Bool.or_eq_true, List.isEmpty_iff, List.isEmpty_iff] at hb
                push_neg at hb
                simp [process_data, hd, hsp, hatm, hco, hpo] at h
                rw [if_neg (not_or.2 ⟨hb.1, hb.2⟩)] at h
                simp at h
                obtain ⟨h1, h2⟩ := h
                subst h2
                exact ⟨resp, d, strikes, co, po, rfl, hd, hsp, hatm, hco, hpo,
                       hb.1, hb.2, h1.symm⟩

/-! ### Claim theorems -/

/-- C1: for every analysis record with numeric call/put fields,
`generate_recommendation` distributes exactly three points in total
(callScore + putScore = 3), the returned direction is NEUTRAL iff the two
scores are equal, and therefore the direction is never NEUTRAL. -/
theorem recommendation_three_points (a : StrikeAnalysis) :
    (generate_recommendation a).callScore + (generate_recommendation a).putScore = 3 ∧
    ((generate_recommendation a).direction = Direction.NEUTRAL ↔
      (generate_recommendation a).callScore = (generate_recommendation a).putScore) ∧
    (generate_recommendation a).direction ≠ Direction.NEUTRAL := by
  unfold generate_recommendation
  by_cases h1 : a.call.iv < a.put.iv <;>
    by_cases h2 : a.call.oi > a.put.oi <;>
      by_cases h3 : a.call.spread < a.put.spread <;>
        simp [h1, h2, h3]

/-- C2: each of the three factor comparisons awards exactly one point to
exactly one side with strict-inequality tie semantics: the IV point goes
to the call iff call IV < put IV, the OI point goes to the call iff
call OI > put OI, the spread point goes to the call iff call spread <
put spread (else in each case the put gets the point), with the matching
ordered factor strings; and the spread fields scored here are the
ask − bid differences of the analyzed row. -/
theorem recommendation_factor_rule (a : StrikeAnalysis) :
    (generate_recommendation a).callScore =
      ((if a.call.iv < a.put.iv then 1 else 0) +
        (if a.call.oi > a.put.oi then 1 else 0) +
        (if a.call.spread < a.put.spread then 1 else 0)) ∧
    (generate_recommendation a).putScore =
      ((if a.call.iv < a.put.iv then 0 else 1) +
        (if a.call.oi > a.put.oi then 0 else 1) +
        (if a.call.spread < a.put.spread then 0 else 1)) ∧
    (generate_recommendation a).factors =
      [if a.call.iv < a.put.iv then "Call has lower IV" else "Put has lower IV",
       if a.call.oi > a.put.oi then "Call has higher OI" else "Put has higher OI",
       if a.call.spread < a.put.spread then "Call has tighter spread"
         else "Put has tighter spread"] ∧
    (∀ (chain : List ChainRow) (s : ℚ),
      (analyze_strike chain s).map (fun an => an.call.spread) =
        (findRow chain s).map (fun r => r.askPrice_call - r.bidPrice_call) ∧
      (analyze_strike chain s).map (fun an => an.put.spread) =
        (findRow chain s).map (fun r => r.askPrice_put - r.bidPrice_put)) := by
  refine ⟨?_, ?_, ?_, ?_⟩
  · unfold generate_recommendation
    by_cases h1 : a.call.iv < a.put.iv <;>
      by_cases h2 : a.call.oi > a.put.oi <;>
        by_cases h3 : a.call.spread < a.put.spread <;>
          simp [h1, h2, h3]
  · unfold generate_recommendation
    by_cases h1 : a.call.iv < a.put.iv <;>
      by_cases h2 : a.call.oi > a.put.oi <;>
        by_cases h3 : a.call.spread < a.put.spread <;>
          simp [h1, h2, h3]
  · unfold generate_recommendation
    by_cases h1 : a.call.iv < a.put.iv <;>
      by_cases h2 : a.call.oi > a.put.oi <;>
        by_cases h3 : a.call.spread < a.put.spread <;>
          simp [h1, h2, h3]
  · intro chain s
    unfold analyze_strike
    cases findRow chain s <;> simp

/-- C3: every row of a table produced by a successful `process_data` run
carries exactly one of the labels ITM/OTM/ATM, with ATM iff the row
strike equals the detected ATM strike, ITM iff it is below, and OTM iff
it is above. -/
theorem table_moneyness_rule (input : Option RawResponse) (table : List ChainRow) (atm : ℚ)
    (h : (process_data input).1 = (some table, some atm)) :
    ∀ row ∈ table,
      (row.moneyness = "ITM" ∨ row.moneyness = "OTM" ∨ row.moneyness = "ATM") ∧
      (row.moneyness = "ATM" ↔ row.strikePrice = atm) ∧
      (row.moneyness = "ITM" ↔ row.strikePrice < atm) ∧
      (row.moneyness = "OTM" ↔ atm < row.strikePrice) := by
  obtain ⟨resp, d, strikes, co, po, -, -, -, -, -, -, -, -, htab⟩ :=
    process_data_success_shape h
  subst htab
  intro row hrow
  obtain ⟨x, -, rfl⟩ := List.mem_map.1 hrow
  obtain ⟨hkey, hmon⟩ := toChainRow_key_moneyness atm x
  rw [hmon, hkey]
  exact ⟨moneyness_of_mem x.1 atm, moneyness_of_eq_ATM x.1 atm,
         moneyness_of_eq_ITM x.1 atm, moneyness_of_eq_OTM x.1 atm⟩

/-- Witness for C3 at the first row (strike 100, below the ATM strike
105) of the sample table. -/
theorem table_moneyness_rule_witness :
    ((sampleTable.headD ⟨0, 0, 0, 0, 0, 0, 0, 0, 0, 0, 0, ""⟩).moneyness = "ITM" ∨
      (sampleTable.headD ⟨0, 0, 0, 0, 0, 0, 0, 0, 0, 0, 0, ""⟩).moneyness = "OTM" ∨
      (sampleTable.headD ⟨0, 0, 0, 0, 0, 0, 0, 0, 0, 0, 0, ""⟩).moneyness = "ATM") ∧
    ((sampleTable.headD ⟨0, 0, 0, 0, 0, 0, 0, 0, 0, 0, 0, ""⟩).moneyness = "ATM" ↔
      (sampleTable.headD ⟨0, 0, 0, 0, 0, 0, 0, 0, 0, 0, 0, ""⟩).strikePrice = 105) ∧
    ((sampleTable.headD ⟨0, 0, 0, 0, 0, 0, 0, 0, 0, 0, 0, ""⟩).moneyness = "ITM" ↔
      (sampleTable.headD ⟨0, 0, 0, 0, 0, 0, 0, 0, 0, 0, 0, ""⟩).strikePrice < 105) ∧
    ((sampleTable.headD ⟨0, 0, 0, 0, 0, 0, 0, 0, 0, 0, 0, ""⟩).moneyness = "OTM" ↔
      (105 : ℚ) < (sampleTable.headD ⟨0, 0, 0, 0, 0, 0, 0, 0, 0, 0, 0, ""⟩).strikePrice) :=
  table_moneyness_rule (some sampleResp) sampleTable 105 (by decide)
    (sampleTable.headD ⟨0, 0, 0, 0, 0, 0, 0, 0, 0, 0, 0, ""⟩) (by decide)

/-- C4 counterexample: a chain whose normalized call and put records hold
exactly one distinct strike (the call side being empty) yields no
one-row table: `process_data` returns `(None, None)` because the merge
raises on the empty side. This refutes the claim as stated. -/
theorem outer_join_empty_side_counterexample :
    (process_data (some emptyCallResp)).1 = (none, none) ∧
    (((process_options ([] : List RawOption)).1.map NormRecord.strikePrice).toFinset ∪
      ((process_options [numOpt 100 300 20 5 1 3]).1.map NormRecord.strikePrice).toFinset).card
      = 1 := by
  decide

/-- C6 counterexample: with the first strike entry flagged `isAtm` and
carrying the strike value 0, the claim says detection returns that
strike (0); the code instead treats 0 as falsy (`if not atm_strike`),
falls back, finds 0 again, and fails with `(None, None)`. -/
theorem atm_zero_truthiness_counterexample :
    (process_data (some zeroAtmResp)).1 = (none, none) ∧
    (process_data (some zeroAtmResp)).1.2 ≠ some 0 := by
  decide

/-- C8: assembly is deterministic, a pure function of the raw response
value: equal inputs produce identical (table, atmStrike, log) results. -/
theorem process_data_deterministic (x y : Option RawResponse) (h : x = y) :
    process_data x = process_data y := by
  rw [h]

/-- Witness for C8 at the sample response. -/
theorem process_data_deterministic_witness :
    process_data (some sampleResp) = process_data (some sampleResp) :=
  process_data_deterministic (some sampleResp) (some sampleResp) rfl

/-- C9: `process_data` is total on the modelled input space (it is a
Lean function, every Python exception path being caught and modelled as
a value): every run either fails as the full pair `(None, None)` with at
least one diagnostic logged, or succeeds with both a table and an ATM
strike; no mixed or silent outcome exists. -/
theorem process_data_total_outcomes (input : Option RawResponse) :
    (∃ log, process_data input = ((none, none), log) ∧ log ≠ []) ∨
    (∃ table atm log, process_data input = ((some table, some atm), log)) := by
  cases input with
  | none => exact Or.inl ⟨["No data to process"], rfl, by simp⟩
  | some resp =>
    cases hd : resp.data with
    | none =>
      exact Or.inl ⟨["ERROR: data key missing in response"], by simp [process_data, hd], by simp⟩
    | some d =>
      cases hsp : d.strikePrices with
      | none =>
        exact Or.inl ⟨["ERROR: strikePrices missing in response data"],
          by simp [process_data, hd, hsp], by simp⟩
      | some strikes =>
        cases hatm : detectAtm strikes with
        | keyError =>
          exact Or.inl ⟨["ERROR: Data processing failed"],
            by simp [process_data, hd, hsp, hatm], by simp⟩
        | noStrikes =>
          exact Or.inl ⟨["WARNING: Could not determine ATM strike price",
            "ERROR: No strike prices found"], by simp [process_data, hd, hsp, hatm], by simp⟩
        | found q =>
          cases hco : d.callOptions with
          | none =>
            exact Or.inl ⟨["ERROR: Data processing failed"],
              by simp [process_data, hd, hsp, hatm, hco], by simp⟩
          | some co =>
            cases hpo : d.putOptions with
            | none =>
              exact Or.inl ⟨(process_options co).2 ++ ["ERROR: Data processing failed"],
                by simp [process_data, hd, hsp, hatm, hco, hpo], by simp⟩
            | some po =>
              by_cases hb : ((process_options co).1 = [] ∨ (process_options po).1 = [])
              · refine Or.inl ⟨(process_options co).2 ++ (process_options po).2 ++
                  ["ERROR: Data processing failed"], ?_, by simp⟩
                simp [process_data, hd, hsp, hatm, hco, hpo]
                tauto
              · refine Or.inr ⟨assembleTable (process_options co).1 (process_options po).1 q, q,
                  (process_options co).2 ++ (process_options po).2, ?_⟩
                simp [process_data, hd, hsp, hatm, hco, hpo]
                exact not_or.1 hb

/-- C10: when, after normalization, the call side or the put side
contributes an empty record list, the join step cannot be performed (an
empty frame has no strikePrice column) and `process_data` returns
`(None, None)` instead of a one-sided zero-filled table. -/
theorem empty_side_no_table (resp : RawResponse) (d : RawData) (strikes : List StrikeEntry)
    (co po : List RawOption) (atm : ℚ)
    (h1 : resp.data = some d) (h2 : d.strikePrices = some strikes)
    (h3 : detectAtm strikes = AtmResult.found atm)
    (h4 : d.callOptions = some co) (h5 : d.putOptions = some po)
    (h6 : (process_options co).1 = [] ∨ (process_options po).1 = []) :
    (process_data (some resp)).1 = (none, none) := by
  simp [process_data, h1, h2, h3, h4, h5]
  rw [if_pos h6]

/-- Witness for C10 at the concrete empty-call-side response. -/
theorem empty_side_no_table_witness :
    (process_data (some emptyCallResp)).1 = (none, none) :=
  empty_side_no_table emptyCallResp
    ⟨some [⟨some 100, true⟩], some [], some [numOpt 100 300 20 5 1 3]⟩
    [⟨some 100, true⟩] [] [numOpt 100 300 20 5 1 3] 100
    rfl rfl (by decide) rfl rfl (Or.inl (by decide))

/-- C5: normalization yields 0 for each optional numeric field that is
absent, null or non-coercible; an entry is dropped — producing one
warning while the rest of the batch is still processed — exactly when
its strikePrice is absent or fails to coerce (null or non-numeric). -/
theorem normalize_defaults (opts : List RawOption) (o : RawOption) :
    (process_options opts).1 = opts.filterMap normalizeOption ∧
    (process_options opts).2 =
      (opts.filter fun x => (normalizeOption x).isNone).map
        (fun _ => "Warning: Skipping malformed option") ∧
    ((normalizeOption o).isNone ↔
      (o.strikePrice = none ∨ o.strikePrice = some RawVal.null ∨
        o.strikePrice = some RawVal.bad)) ∧
    (∀ q, o.strikePrice = some (RawVal.num q) →
      normalizeOption o = some
        { strikePrice := q, openInterest := safe_get o.openInterest
          impliedVolatility := safe_get o.impliedVolatility, lastPrice := safe_get o.lastPrice
          bidPrice := safe_get o.bidPrice, askPrice := safe_get o.askPrice }) ∧
    safe_get none = 0 ∧ safe_get (some RawVal.null) = 0 ∧ safe_get (some RawVal.bad) = 0 := by
  refine ⟨?_, ?_, ?_, ?_, rfl, rfl, rfl⟩
  · induction opts with
    | nil => rfl
    | cons a t ih =>
      simp only [process_options]
      cases hna : normalizeOption a <;>
        simp [List.filterMap_cons, hna, ih]
  · induction opts with
    | nil => rfl
    | cons a t ih =>
      simp only [process_options]
      cases hna : normalizeOption a <;>
        simp [List.filter_cons, hna, Option.isNone, ih]
  · unfold normalizeOption coerceStrike
    rcases hs : o.strikePrice with - | v
    · simp
    · cases v <;> simp
  · intro q hq
    unfold normalizeOption coerceStrike
    rw [hq]
    rfl

/-- Witness for C5 at a concrete two-entry batch: `wOptA` keeps its
numeric strike and defaults its absent/null/bad optional fields to 0;
`wOptB` (no strikePrice) is dropped with one warning. -/
theorem normalize_defaults_witness :
    (process_options wOpts).1 = wOpts.filterMap normalizeOption ∧
    (process_options wOpts).2 =
      (wOpts.filter fun x => (normalizeOption x).isNone).map
        (fun _ => "Warning: Skipping malformed option") ∧
    ((normalizeOption wOptB).isNone ↔
      (wOptB.strikePrice = none ∨ wOptB.strikePrice = some RawVal.null ∨
        wOptB.strikePrice = some RawVal.bad)) ∧
    (∀ q, wOptB.strikePrice = some (RawVal.num q) →
      normalizeOption wOptB = some
        { strikePrice := q, openInterest := safe_get wOptB.openInterest
          impliedVolatility := safe_get wOptB.impliedVolatility
          lastPrice := safe_get wOptB.lastPrice
          bidPrice := safe_get wOptB.bidPrice, askPrice := safe_get wOptB.askPrice }) ∧
    safe_get none = 0 ∧ safe_get (some RawVal.null) = 0 ∧ safe_get (some RawVal.bad) = 0 :=
  normalize_defaults wOpts wOptB

/-- The fallback arm of ATM detection agrees with the head-nonzero rule
whenever every entry carries a strike value. -/
lemma fallbackAtm_rule (strikes : List StrikeEntry)
    (hall : ∀ s ∈ strikes, (s.strikePrice).isSome = true) :
    fallbackAtm strikes =
      (match headNonzero strikes with
       | some q => AtmResult.found q
       | none => AtmResult.noStrikes) := by
  cases strikes with
  | nil => rfl
  | cons s t =>
    obtain ⟨q, hq⟩ := Option.isSome_iff_exists.mp (hall s (by simp))
    by_cases h0 : q = 0 <;> simp [fallbackAtm, headNonzero, hq, h0]

/-- The generator scan of the detection block is `List.find?` on the
`isAtm` flag. -/
lemma firstFlagged_eq_find (strikes : List StrikeEntry) :
    firstFlagged strikes = strikes.find? (fun s => s.isAtm) := by
  induction strikes with
  | nil => rfl
  | cons s t ih =>
    by_cases hs : s.isAtm <;> simp [firstFlagged, List.find?_cons, hs, ih]

/-- C6 (amended): ATM detection returns the strikePrice of the first
`isAtm`-flagged entry provided that value is nonzero; otherwise (no entry
flagged, or a flagged strike equal to 0, which is falsy under the
`if not atm_strike` test) it falls back to the first entry's strikePrice,
again provided it is nonzero; when the sequence is empty, or the selected
value is 0, detection fails, and with an empty `strikePrices` sequence
`process_data` returns no table: `(None, None)`. -/
theorem atm_detection_rule (strikes : List StrikeEntry) (d : RawData)
    (hall : ∀ s ∈ strikes, (s.strikePrice).isSome = true)
    (hempty : d.strikePrices = some []) :
    detectAtm strikes =
      (match atmRuleSpec strikes with
       | some q => AtmResult.found q
       | none => AtmResult.noStrikes) ∧
    (process_data (some ⟨some d⟩)).1 = (none, none) := by
  constructor
  · unfold detectAtm atmRuleSpec
    rw [firstFlagged_eq_find]
    cases hf : strikes.find? (fun s => s.isAtm) with
    | none => exact fallbackAtm_rule strikes hall
    | some s =>
      have hmem := List.mem_of_find?_eq_some hf
      obtain ⟨q, hq⟩ := Option.isSome_iff_exists.mp (hall s hmem)
      simp only [hq]
      by_cases h0 : q = 0
      · subst h0
        simp [fallbackAtm_rule strikes hall]
      · simp [h0]
  · simp [process_data, hempty, detectAtm, firstFlagged, fallbackAtm]

/-- Witness for C6 (amended): no entry flagged, nonzero first strike, so
the fallback applies; and an empty sequence yields `(None, None)`. -/
theorem atm_detection_rule_witness :
    detectAtm wStrikes =
      (match atmRuleSpec wStrikes with
       | some q => AtmResult.found q
       | none => AtmResult.noStrikes) ∧
    (process_data (some ⟨some ⟨some [], some [], some []⟩⟩)).1 = (none, none) :=
  atm_detection_rule wStrikes ⟨some [], some [], some []⟩ (by decide) rfl

/-- The nearest fold returns either its seed or a strike of the list, and
minimizes the absolute distance to the query over seed and list. -/
lemma nearestFold_min (t : List ChainRow) (q b : ℚ) :
    (nearestFold q b t = b ∨ ∃ row ∈ t, row.strikePrice = nearestFold q b t) ∧
    |nearestFold q b t - q| ≤ |b - q| ∧
    ∀ row ∈ t, |nearestFold q b t - q| ≤ |row.strikePrice - q| := by
  induction t generalizing b with
  | nil => simp [nearestFold]
  | cons r t ih =>
    have hstep : nearestFold q b (r :: t) =
        nearestFold q (if |r.strikePrice - q| < |b - q| then r.strikePrice else b) t := rfl
    by_cases h : |r.strikePrice - q| < |b - q|
    · rw [hstep, if_pos h]
      obtain ⟨m1, m2, m3⟩ := ih r.strikePrice
      refine ⟨?_, le_trans m2 (le_of_lt h), ?_⟩
      · rcases m1 with h1 | ⟨row, hrow, hr⟩
        · exact Or.inr ⟨r, by simp, h1.symm⟩
        · exact Or.inr ⟨row, by simp [hrow], hr⟩
      · intro row hrow
        rcases List.mem_cons.mp hrow with rfl | h2
        · exact m2
        · exact m3 row h2
    · rw [hstep, if_neg h]
      obtain ⟨m1, m2, m3⟩ := ih b
      refine ⟨?_, m2, ?_⟩
      · rcases m1 with h1 | ⟨row, hrow, hr⟩
        · exact Or.inl h1
        · exact Or.inr ⟨row, by simp [hrow], hr⟩
      · intro row hrow
        rcases List.mem_cons.mp hrow with rfl | h2
        · exact le_trans m2 (not_lt.mp h)
        · exact m3 row h2

/-- C7: on a populated table, a query for a strike matching no row
produces no analysis (`none`, nothing is scored) and the reported nearest
strike is a strike of the table at minimal absolute distance from the
query. -/
theorem strike_not_found_nearest (chain : List ChainRow) (q : ℚ)
    (hne : chain ≠ []) (habs : ∀ row ∈ chain, row.strikePrice ≠ q) :
    analyze_strike chain q = none ∧
    ∃ n, nearestStrike chain q = some n ∧ (∃ row ∈ chain, row.strikePrice = n) ∧
      ∀ row ∈ chain, |n - q| ≤ |row.strikePrice - q| := by
  constructor
  · unfold analyze_strike findRow
    have hf : chain.filter (fun r => decide (r.strikePrice = q)) = [] := by
      rw [List.filter_eq_nil_iff]
      intro r hr
      simpa using habs r hr
    rw [hf]
    rfl
  · cases chain with
    | nil => exact absurd rfl hne
    | cons r rs =>
      obtain ⟨m1, m2, m3⟩ := nearestFold_min rs q r.strikePrice
      refine ⟨nearestFold q r.strikePrice rs, rfl, ?_, ?_⟩
      · rcases m1 with h1 | ⟨row, hrow, hr⟩
        · exact ⟨r, by simp, h1.symm⟩
        · exact ⟨row, by simp [hrow], hr⟩
      · intro row hrow
        rcases List.mem_cons.mp hrow with rfl | h2
        · exact m2
        · exact m3 row h2

/-- Witness for C7: querying 50 against the one-row table at strike 100. -/
theorem strike_not_found_nearest_witness :
    analyze_strike wChain 50 = none ∧
    ∃ n, nearestStrike wChain 50 = some n ∧ (∃ row ∈ wChain, row.strikePrice = n) ∧
      ∀ row ∈ wChain, |n - 50| ≤ |row.strikePrice - 50| :=
  strike_not_found_nearest wChain 50 (by decide) (by decide)

/-- In a list of records with pairwise distinct strikes, at most one
record matches a given strike. -/
lemma filter_strike_len_le_one (l : List NormRecord) (v : ℚ)
    (hn : (l.map NormRecord.strikePrice).Nodup) :
    (l.filter fun p => decide (p.strikePrice = v)).length ≤ 1 := by
  induction l with
  | nil => simp
  | cons p t ih =>
    rw [List.map_cons, List.nodup_cons] at hn
    by_cases hp : p.strikePrice = v
    · rw [List.filter_cons_of_pos (by simp [hp])]
      have ht : t.filter (fun x => decide (x.strikePrice = v)) = [] := by
        rw [List.filter_eq_nil_iff]
        intro x hx
        simp only [decide_eq_true_eq]
        intro hxv
        have hmem : x.strikePrice ∈ t.map NormRecord.strikePrice :=
          List.mem_map_of_mem _ hx
        rw [hxv, ← hp] at hmem
        exact hn.1 hmem
      simp [ht]
    · rw [List.filter_cons_of_neg (by simp [hp])]
      exact ih hn.2

/-- The put-only filter keeps exactly the records whose strike occurs in
no call record. -/
lemma all_ne_iff (calls : List NormRecord) (p : NormRecord) :
    ((calls.all fun c => !(decide (c.strikePrice = p.strikePrice))) = true ↔
      p.strikePrice ∉ calls.map NormRecord.strikePrice) := by
  rw [List.all_eq_true]
  constructor
  · intro h hmem
    obtain ⟨c, hc, hcp⟩ := List.mem_map.mp hmem
    have h2 := h c hc
    rw [Bool.not_eq_true', decide_eq_false_iff_not] at h2
    exact h2 hcp
  · intro h c hc
    rw [Bool.not_eq_true', decide_eq_false_iff_not]
    intro hcp
    exact h (List.mem_map.mpr ⟨c, hc, hcp⟩)

/-- With distinct put strikes every call record contributes exactly one
merged row, so the merge has one row per call record plus one per
put-only record. -/
lemma mergeKeyed_length (calls puts : List NormRecord)
    (hpn : (puts.map NormRecord.strikePrice).Nodup) :
    (mergeKeyed calls puts).length =
      calls.length +
        (puts.filter fun p =>
          calls.all fun c => !(decide (c.strikePrice = p.strikePrice))).length := by
  unfold mergeKeyed
  rw [List.length_append, List.length_map]
  congr 1
  induction calls with
  | nil => rfl
  | cons c t ih =>
    simp only [List.flatMap_cons, List.length_append, List.length_cons]
    rw [ih]
    have h1 : ((match puts.filter (fun p => decide (p.strikePrice = c.strikePrice)) with
        | [] => [(c.strikePrice, some c, none)]
        | ms => ms.map fun p => (c.strikePrice, some c, some p)) :
          List (ℚ × Option NormRecord × Option NormRecord)).length = 1 := by
      rcases hflt : puts.filter (fun p => decide (p.strikePrice = c.strikePrice))
        with - | ⟨p0, pt⟩
      · rw [hflt]
        rfl
      · have hle := filter_strike_len_le_one puts c.strikePrice hpn
        rw [hflt, List.length_cons] at hle
        have hpt : pt = [] := List.length_eq_zero.mp (Nat.le_zero.mp (Nat.succ_le_succ_iff.mp hle))
        subst hpt
        rw [hflt]
        rfl
    rw [h1]
    omega

/-- Length of the put-only block: one row per distinct put strike outside
the call strikes. -/
lemma rightOnly_length (calls puts : List NormRecord)
    (hpn : (puts.map NormRecord.strikePrice).Nodup) :
    (puts.filter fun p =>
      calls.all fun c => !(decide (c.strikePrice = p.strikePrice))).length =
      ((puts.map NormRecord.strikePrice).toFinset \
        (calls.map NormRecord.strikePrice).toFinset).card := by
  induction puts with
  | nil => simp
  | cons p t ih =>
    rw [List.map_cons, List.nodup_cons] at hpn
    have ih2 := ih hpn.2
    by_cases hmem : p.strikePrice ∈ calls.map NormRecord.strikePrice
    · have hfalse : (calls.all fun c => !(decide (c.strikePrice = p.strikePrice))) = false := by
        rw [Bool.eq_false_iff]
        intro htrue
        exact (all_ne_iff calls p).mp htrue hmem
      have hstep : ((p :: t).filter fun x =>
          calls.all fun c => !(decide (c.strikePrice = x.strikePrice))) =
          t.filter fun x => calls.all fun c => !(decide (c.strikePrice = x.strikePrice)) := by
        simp [List.filter_cons, hfalse]
      rw [hstep, ih2, List.map_cons, List.toFinset_cons,
          Finset.insert_sdiff_of_mem _ (List.mem_toFinset.mpr hmem)]
    · have htrue : (calls.all fun c => !(decide (c.strikePrice = p.strikePrice))) = true :=
        (all_ne_iff calls p).mpr hmem
      have hstep : ((p :: t).filter fun x =>
          calls.all fun c => !(decide (c.strikePrice = x.strikePrice))) =
          p :: (t.filter fun x => calls.all fun c => !(decide (c.strikePrice = x.strikePrice))) := by
        simp [List.filter_cons, htrue]
      rw [hstep, List.length_cons, ih2, List.map_cons,
          List.toFinset_cons,
          Finset.insert_sdiff_of_not_mem _ (fun hc => hmem (List.mem_toFinset.mp hc)),
          Finset.card_insert_of_not_mem
            (fun hc => hpn.1 (List.mem_toFinset.mp (Finset.mem_sdiff.mp hc).1))]

/-- Membership characterization of the merge: every merged element's key
comes from one of the two sides, and a key missing from a side leaves
that side's record `none`. -/
lemma mergeKeyed_mem {calls puts : List NormRecord}
    {x : ℚ × Option NormRecord × Option NormRecord} (hx : x ∈ mergeKeyed calls puts) :
    (x.1 ∈ calls.map NormRecord.strikePrice ∨ x.1 ∈ puts.map NormRecord.strikePrice) ∧
    (x.1 ∉ calls.map NormRecord.strikePrice → x.2.1 = none) ∧
    (x.1 ∉ puts.map NormRecord.strikePrice → x.2.2 = none) := by
  unfold mergeKeyed at hx
  rcases List.mem_append.mp hx with hA | hB
  · obtain ⟨c, hc, hfc⟩ := List.mem_flatMap.mp hA
    rcases hflt : puts.filter (fun p => decide (p.strikePrice = c.strikePrice))
      with - | ⟨p0, pt⟩
    · rw [hflt] at hfc
      simp only [List.mem_singleton] at hfc
      subst hfc
      exact ⟨Or.inl (List.mem_map_of_mem _ hc),
             fun hnc => absurd (List.mem_map_of_mem _ hc) hnc,
             fun _ => rfl⟩
    · rw [hflt] at hfc
      obtain ⟨p, hp, hxp⟩ := List.mem_map.mp hfc
      have hpf : p ∈ puts.filter (fun q => decide (q.strikePrice = c.strikePrice)) :=
        hflt ▸ hp
      have h2 := List.mem_filter.mp hpf
      have hpc : p.strikePrice = c.strikePrice := of_decide_eq_true h2.2
      subst hxp
      refine ⟨Or.inl (List.mem_map_of_mem _ hc),
              fun hnc => absurd (List.mem_map_of_mem _ hc) hnc,
              fun hnp => absurd ?_ hnp⟩
      exact hpc ▸ List.mem_map_of_mem _ h2.1
  · obtain ⟨p, hp, hxp⟩ := List.mem_map.mp hB
    have h2 := List.mem_filter.mp hp
    have hnc := (all_ne_iff calls p).mp h2.2
    subst hxp
    exact ⟨Or.inr (List.mem_map_of_mem _ h2.1),
           fun _ => rfl,
           fun hnp => absurd (List.mem_map_of_mem _ h2.1) hnp⟩

/-- A merged element with no call side produces a row whose call columns
are all zero. -/
lemma toChainRow_call_fields_zero (atm : ℚ) (x : ℚ × Option NormRecord × Option NormRecord)
    (h : x.2.1 = none) :
    (toChainRow atm x).openInterest_call = 0 ∧ (toChainRow atm x).impliedVolatility_call = 0 ∧
    (toChainRow atm x).lastPrice_call = 0 ∧ (toChainRow atm x).bidPrice_call = 0 ∧
    (toChainRow atm x).askPrice_call = 0 := by
  obtain ⟨k, oc, op⟩ := x
  cases oc with
  | none => exact ⟨rfl, rfl, rfl, rfl, rfl⟩
  | some c => simp at h

/-- A merged element with no put side produces a row whose put columns
are all zero. -/
lemma toChainRow_put_fields_zero (atm : ℚ) (x : ℚ × Option NormRecord × Option NormRecord)
    (h : x.2.2 = none) :
    (toChainRow atm x).openInterest_put = 0 ∧ (toChainRow atm x).impliedVolatility_put = 0 ∧
    (toChainRow atm x).lastPrice_put = 0 ∧ (toChainRow atm x).bidPrice_put = 0 ∧
    (toChainRow atm x).askPrice_put = 0 := by
  obtain ⟨k, oc, op⟩ := x
  cases op with
  | none => exact ⟨rfl, rfl, rfl, rfl, rfl⟩
  | some p => simp at h

/-- C4 (amended): when each side's normalized records carry pairwise
distinct strikes, the assembled table — which `process_data` returns
whenever both sides are non-empty (see the counterexample and C10 for
the empty-side failure) — has exactly one row per distinct strike
across both sides, every row's strike comes from one of the sides, and a
row present on only one side has the other side's columns zero-filled. -/
theorem assembleTable_outer_join (calls puts : List NormRecord) (atm : ℚ)
    (hcn : (calls.map NormRecord.strikePrice).Nodup)
    (hpn : (puts.map NormRecord.strikePrice).Nodup) :
    (assembleTable calls puts atm).length =
      ((calls.map NormRecord.strikePrice).toFinset ∪
        (puts.map NormRecord.strikePrice).toFinset).card ∧
    ∀ row ∈ assembleTable calls puts atm,
      (row.strikePrice ∈ calls.map NormRecord.strikePrice ∨
        row.strikePrice ∈ puts.map NormRecord.strikePrice) ∧
      (row.strikePrice ∉ calls.map NormRecord.strikePrice →
        row.openInterest_call = 0 ∧ row.impliedVolatility_call = 0 ∧
        row.lastPrice_call = 0 ∧ row.bidPrice_call = 0 ∧ row.askPrice_call = 0) ∧
      (row.strikePrice ∉ puts.map NormRecord.strikePrice →
        row.openInterest_put = 0 ∧ row.impliedVolatility_put = 0 ∧
        row.lastPrice_put = 0 ∧ row.bidPrice_put = 0 ∧ row.askPrice_put = 0) := by
  constructor
  · rw [assembleTable, List.length_map, mergeKeyed_length calls puts hpn,
        rightOnly_length calls puts hpn]
    have h1 : (calls.map NormRecord.strikePrice).toFinset.card = calls.length := by
      rw [List.toFinset_card_of_nodup hcn, List.length_map]
    rw [← h1, Finset.union_comm, ← Finset.card_sdiff_add_card]
    omega
  · intro row hrow
    obtain ⟨x, hxmem, rfl⟩ := List.mem_map.mp hrow
    obtain ⟨hcomp, hcz, hpz⟩ := mergeKeyed_mem hxmem
    have hkey : (toChainRow atm x).strikePrice = x.1 := (toChainRow_key_moneyness atm x).1
    rw [hkey]
    exact ⟨hcomp, fun hnc => toChainRow_call_fields_zero atm x (hcz hnc),
           fun hnp => toChainRow_put_fields_zero atm x (hpz hnp)⟩

/-- Witness for C4 (amended): calls at strikes 100 and 105, puts at 105
and 110, giving a three-row table. -/
theorem assembleTable_outer_join_witness :
    (assembleTable wCalls wPuts 105).length =
      ((wCalls.map NormRecord.strikePrice).toFinset ∪
        (wPuts.map NormRecord.strikePrice).toFinset).card ∧
    ∀ row ∈ assembleTable wCalls wPuts 105,
      (row.strikePrice ∈ wCalls.map NormRecord.strikePrice ∨
        row.strikePrice ∈ wPuts.map NormRecord.strikePrice) ∧
      (row.strikePrice ∉ wCalls.map NormRecord.strikePrice →
        row.openInterest_call = 0 ∧ row.impliedVolatility_call = 0 ∧
        row.lastPrice_call = 0 ∧ row.bidPrice_call = 0 ∧ row.askPrice_call = 0) ∧
      (row.strikePrice ∉ wPuts.map NormRecord.strikePrice →
        row.openInterest_put = 0 ∧ row.impliedVolatility_put = 0 ∧
        row.lastPrice_put = 0 ∧ row.bidPrice_put = 0 ∧ row.askPrice_put = 0) :=
  assembleTable_outer_join wCalls wPuts 105 (by decide) (by decide)

end OptionChain
